import Mathlib

/-!
Verification of the opcode execution core of an EVM implementation
(`src/lib/opFns.js`).  The definitions below are a shallow embedding of the
source: 256-bit machine words are modelled as `Nat` (reduced mod `2^256`
where the source wraps), big-number (`BN`) arithmetic as `Nat`/`Int`
arithmetic (BN division truncates toward zero), JavaScript byte buffers as
`List Nat`, the frame's memory as a byte map `Nat → Nat` (reads of unwritten
or `undefined` cells yield `0`, which is how the source observes them through
`new Buffer`), and traps (`throw VmError`) as an `Option Err` component of the
result.  Fee-schedule constants come from the external `ethereum-common`
package (homestead values).
-/

inductive Err where
  | outOfGas
  | invalidJump
  deriving DecidableEq, Repr

/-- Constant `MAX_INT` from the source (`9007199254740991 = 2^53 - 1`). -/
def MAX_INT : Nat := 9007199254740991

-- fee-schedule constants (external `ethereum-common` package, homestead)
def memoryGas : Nat := 3
def quadCoeffDiv : Nat := 512
def copyGas : Nat := 3
def sstoreSetGas : Nat := 20000
def sstoreResetGas : Nat := 5000
def sstoreRefundGas : Nat := 15000
def callValueTransferGas : Nat := 9000
def callNewAccountGas : Nat := 25000
def callStipend : Nat := 2300
def stackLimit : Nat := 1024

/-- The slice of the frame (`runState`) that the gas / memory / storage
handlers below touch. -/
structure VMState where
  memoryWordCount : Nat
  highestMemCost : Nat
  gasLeft : Int
  memory : Nat → Nat
  callData : List Nat

/-- Function `subGas` from the source: `gasLeft.isub(amount)` happens first, and the
trap fires afterwards when the result is negative, so the decremented
(possibly negative) counter is left behind in every case. -/
def subGas (gasLeft : Int) (amount : Nat) : Int × Option Err :=
  let g := gasLeft - (amount : Int)
  (g, if g < 0 then some Err.outOfGas else none)

/-- Total memory cost at word count `w`: `words * 3 + words ^ 2 / 512`
(the `cost` expression inside `subMemUsage`). -/
def memTotalCost (w : Nat) : Nat :=
  memoryGas * w + w * w / quadCoeffDiv

/-- Function `subMemUsage` from the source.  Zero length returns immediately; offsets
or lengths beyond `MAX_INT` trap OUT_OF_GAS; otherwise the word count is
raised to `⌈(offset+length)/32⌉` and the cost increment over
`highestMemCost` is deducted through `subGas`.  On an OUT_OF_GAS trap inside
`subGas` the word count is already raised and the gas already decremented,
but `highestMemCost` is not updated (the throw skips that assignment). -/
def subMemUsage (s : VMState) (offset length : Nat) : VMState × Option Err :=
  if length = 0 then (s, none)
  else if MAX_INT < offset ∨ MAX_INT < length then (s, some Err.outOfGas)
  else if (offset + length + 31) / 32 ≤ s.memoryWordCount then (s, none)
  else
    let w := (offset + length + 31) / 32
    let cost := memTotalCost w
    if s.highestMemCost < cost then
      let p := subGas s.gasLeft (cost - s.highestMemCost)
      match p.2 with
      | some e => ({ s with memoryWordCount := w, gasLeft := p.1 }, some e)
      | none =>
          ({ s with memoryWordCount := w, gasLeft := p.1,
                    highestMemCost := cost }, none)
    else ({ s with memoryWordCount := w }, none)

/-- The write loop of `memStore`: for `i < length`,
`memory[offset + i] = val[valOffset + i]`; an out-of-range source read is
`undefined` in the source, observed as byte `0`. -/
def memStore (mem : Nat → Nat) (offset : Nat) (val : List Nat)
    (valOffset : Nat) : Nat → (Nat → Nat)
  | 0 => mem
  | n + 1 =>
      Function.update (memStore mem offset val valOffset n) (offset + n)
        (val.getD (valOffset + n) 0)

/-- Handler `CALLDATACOPY` from the source: `memStore` (which first bills the
destination range through `subMemUsage`, then writes), followed by the copy
fee `copyGas * ⌈dataLength/32⌉` through `subGas`. -/
def CALLDATACOPY (s : VMState) (memOffset dataOffset dataLength : Nat) :
    VMState × Option Err :=
  let p := subMemUsage s memOffset dataLength
  match p.2 with
  | some e => (p.1, some e)
  | none =>
      let s2 := { p.1 with
        memory := memStore p.1.memory memOffset s.callData dataOffset dataLength }
      let q := subGas s2.gasLeft (copyGas * ((dataLength + 31) / 32))
      ({ s2 with gasLeft := q.1 }, q.2)

/-- Helper `utils.unpad`: strip leading zero bytes. -/
def unpad (l : List Nat) : List Nat := l.dropWhile (fun b => b == 0)

/-- The gas / refund accounting of `SSTORE` (the source's four-way branch on
`value.length` and `found.length` after `value = utils.unpad(val)`).  The
refund is only added when the preceding `subGas` did not throw. -/
def SSTORE (gasLeft : Int) (gasRefund : Nat) (found val : List Nat) :
    Int × Nat × Option Err :=
  let value := unpad val
  if value.length = 0 ∧ found.length = 0 then
    let p := subGas gasLeft sstoreResetGas
    (p.1, gasRefund, p.2)
  else if value.length = 0 ∧ found.length ≠ 0 then
    let p := subGas gasLeft sstoreResetGas
    match p.2 with
    | some e => (p.1, gasRefund, some e)
    | none => (p.1, gasRefund + sstoreRefundGas, none)
  else if value.length ≠ 0 ∧ found.length = 0 then
    let p := subGas gasLeft sstoreSetGas
    (p.1, gasRefund, p.2)
  else
    let p := subGas gasLeft sstoreResetGas
    (p.1, gasRefund, p.2)

/-- Truncation-toward-zero division of an `Int` by a `Nat`, matching `BN.div`. -/
def intDivTZ (a : Int) (b : Nat) : Int :=
  if a < 0 then -((a.natAbs / b : Nat) : Int) else ((a.natAbs / b : Nat) : Int)

/-- Quantity `gasAllowed` inside `checkOutOfGas`: `gasLeft - gasLeft / 64`. -/
def gasAllowed (gasLeft : Int) : Int := gasLeft - intDivTZ gasLeft 64

/-- Function `checkOutOfGas` from the source: cap the requested child gas limit at
`gasLeft - ⌊gasLeft/64⌋`. -/
def checkOutOfGas (gasLeft gasLimit : Int) : Int :=
  if gasAllowed gasLeft < gasLimit then gasAllowed gasLeft else gasLimit

/-- The child gas limit of `CREATE`: `checkCallMemCost` assigns
`gasLimit := gasLeft` (CREATE pops no gas limit), and `checkOutOfGas` then
caps it. -/
def createGasLimit (gasLeft : Int) : Int := checkOutOfGas gasLeft gasLeft

/-- Operation `BN.fromTwos(256)`: reinterpret a 256-bit word as a signed value. -/
def fromTwos256 (x : Nat) : Int :=
  if 2 ^ 255 ≤ x then (x : Int) - 2 ^ 256 else (x : Int)

/-- Operation `BN.toTwos(256)`: re-encode a signed value as a 256-bit word. -/
def toTwos256 (x : Int) : Int := if x < 0 then x + 2 ^ 256 else x

/-- Handler `SDIV` from the source.  Note that the source applies `fromTwos(256)`
only to `b`; the dividend `a` stays in its unsigned reading, and `BN.div`
truncates toward zero (for the non-negative `a` this is `a / |b|` with the
divisor's sign applied). -/
def SDIV (a b : Nat) : Int :=
  let bSigned := fromTwos256 b
  if bSigned = 0 then 0
  else
    let q : Nat := a / bSigned.natAbs
    toTwos256 (if bSigned < 0 then -(q : Int) else (q : Int))

/-- The slice of `runState` that `JUMP`/`JUMPI` touch. -/
structure JumpState where
  programCounter : Nat
  validJumps : List Nat
  deriving DecidableEq, Repr

/-- Predicate `jumpIsValid`: `runState.validJumps.indexOf(dest) !== -1`. -/
def jumpIsValid (s : JumpState) (dest : Nat) : Bool :=
  s.validJumps.contains dest

/-- Handler `JUMP` from the source: trap INVALID_JUMP (before the assignment) when
the destination is not a valid jump, else set the program counter. -/
def JUMP (dest : Nat) (s : JumpState) : JumpState × Option Err :=
  if jumpIsValid s dest then ({ s with programCounter := dest }, none)
  else (s, some Err.invalidJump)

/-- Handler `JUMPI` from the source: `dest = i ? c : programCounter`; trap only when
the condition is non-zero and the destination invalid. -/
def JUMPI (c i : Nat) (s : JumpState) : JumpState × Option Err :=
  let dest := if i ≠ 0 then c else s.programCounter
  if i ≠ 0 ∧ jumpIsValid s dest = false then (s, some Err.invalidJump)
  else ({ s with programCounter := dest }, none)

/-- Conversion `new BN(buffer)`: a byte list read as a big-endian number. -/
def bnOfBytes (l : List Nat) : Nat :=
  l.foldl (fun acc b => acc * 256 + b) 0

/-- Handler `PUSH` from the source, with `n = opCode - 0x5f`: the pushed word is
`BN(code.slice(pc, pc + n))` — the *available* bytes only, with no padding
when the code ends early — and the program counter advances by `n`. -/
def PUSH (code : List Nat) (pc n : Nat) : Nat × Nat :=
  (bnOfBytes ((code.drop pc).take n), pc + n)

/-- Handler `CALLDATASIZE` from the source: a call-data of exactly one zero byte
reports size `0`; anything else reports its length. -/
def CALLDATASIZE (callData : List Nat) : Nat :=
  if callData.length = 1 ∧ callData.getD 0 1 = 0 then 0
  else callData.length

/-- State-manager operations observable from the handlers modelled here. -/
inductive SMCall where
  | existsAcct
  | accountIsEmpty
  | cachePut
  deriving DecidableEq, Repr

/-- The guard condition of `makeCall`:
`depth >= stackLimit || (delegatecall !== true && balance < value)`. -/
def makeCallGuard (depth : Nat) (delegate : Bool) (balance value : Nat) :
    Bool :=
  decide (stackLimit ≤ depth) || (!delegate && decide (balance < value))

/-- The tail of `makeCall`: when the guard fires, push `0` and return without
state-manager traffic; otherwise write the contract view to the state-manager
cache and invoke the child-frame runner (`runCall`, external).  The result is
`(pushed-word, child-invoked, state-manager calls)`. -/
def makeCall (depth : Nat) (delegate : Bool) (balance value : Nat) :
    Option Nat × Bool × List SMCall :=
  if makeCallGuard depth delegate balance value then (some 0, false, [])
  else (none, true, [SMCall.cachePut])

/-- Outcome of a call-class handler: final frame slice, trap, pushed word,
state-manager calls issued, whether the child runner was invoked, and the
gas limit handed to the child. -/
structure CallOutcome where
  state : VMState
  err : Option Err
  push : Option Nat
  smCalls : List SMCall
  childInvoked : Bool
  gasLimitChild : Int

/-- The `CALL` handler up to the invocation of the external child runner
(`stateManager` responses are the oracle parameters `tExists`, `tEmpty`; the
state-manager callbacks are taken synchronous).  In source order: `memLoad`
of the input range, `callValueTransferGas` for non-zero value, the
`exists`/`accountIsEmpty` queries with the conditional `callNewAccountGas`,
`checkCallMemCost` (output-range expansion), `checkOutOfGas` (63/64 cap),
the stipend credit, then `makeCall`. -/
def CALL (s : VMState) (gasLimit value : Nat)
    (inOffset inLength outOffset outLength : Nat)
    (depth balance : Nat) (tExists tEmpty : Bool) : CallOutcome :=
  let m1 := subMemUsage s inOffset inLength
  match m1.2 with
  | some e => ⟨m1.1, some e, none, [], false, 0⟩
  | none =>
    let g2 := if value ≠ 0 then subGas m1.1.gasLeft callValueTransferGas
              else (m1.1.gasLeft, none)
    match g2.2 with
    | some e => ⟨{ m1.1 with gasLeft := g2.1 }, some e, none, [], false, 0⟩
    | none =>
      let sm := [SMCall.existsAcct, SMCall.accountIsEmpty]
      let g3 := if (¬tExists = true ∨ tEmpty = true) ∧ value ≠ 0 then
                  subGas g2.1 callNewAccountGas
                else (g2.1, none)
      match g3.2 with
      | some e => ⟨{ m1.1 with gasLeft := g3.1 }, some e, none, sm, false, 0⟩
      | none =>
        -- checkCallMemCost: memLoad(inOffset, inLength) again (the word
        -- count already covers it, so no further charge), then the
        -- output-range expansion
        let s4base := { m1.1 with gasLeft := g3.1 }
        let m4 := if outLength ≠ 0 then subMemUsage s4base outOffset outLength
                  else (s4base, none)
        match m4.2 with
        | some e => ⟨m4.1, some e, none, sm, false, 0⟩
        | none =>
          let glim1 := checkOutOfGas m4.1.gasLeft (gasLimit : Int)
          let g5 := if value ≠ 0 then m4.1.gasLeft + (callStipend : Int)
                    else m4.1.gasLeft
          let glim2 := if value ≠ 0 then glim1 + (callStipend : Int) else glim1
          let s5 := { m4.1 with gasLeft := g5 }
          if makeCallGuard depth false balance value then
            ⟨s5, none, some 0, sm, false, glim2⟩
          else
            ⟨s5, none, none, sm ++ [SMCall.cachePut], true, glim2⟩

/-- The `CREATE` handler up to the invocation of the external child runner:
`checkCallMemCost` bills the `memLoad` of the init-code range and assigns
`gasLimit := gasLeft`, `checkOutOfGas` caps it, and `makeCall` runs the
depth / balance guard. -/
def CREATE (s : VMState) (value offset length : Nat)
    (depth balance : Nat) : CallOutcome :=
  let m1 := subMemUsage s offset length
  match m1.2 with
  | some e => ⟨m1.1, some e, none, [], false, 0⟩
  | none =>
    let glim := createGasLimit m1.1.gasLeft
    if makeCallGuard depth false balance value then
      ⟨m1.1, none, some 0, [], false, glim⟩
    else
      ⟨m1.1, none, none, [SMCall.cachePut], true, glim⟩

-- ## Helper lemmas

lemma memTotalCost_strictMono {a b : Nat} (h : a < b) :
    memTotalCost a < memTotalCost b := by
  unfold memTotalCost memoryGas quadCoeffDiv
  have h1 : a * a / 512 ≤ b * b / 512 :=
    Nat.div_le_div_right (Nat.mul_le_mul h.le h.le)
  have h2 : 3 * a < 3 * b := by omega
  exact add_lt_add_of_lt_of_le h2 h1

lemma subMemUsage_memory (s : VMState) (o l : Nat) :
    (subMemUsage s o l).1.memory = s.memory := by
  unfold subMemUsage
  split
  · rfl
  split
  · rfl
  split
  · rfl
  dsimp only
  split
  · split
    · rfl
    · rfl
  · rfl

lemma memStore_read_in (mem : Nat → Nat) (off : Nat) (val : List Nat)
    (voff : Nat) : ∀ len i, i < len →
      memStore mem off val voff len (off + i) = val.getD (voff + i) 0 := by
  intro len
  induction len with
  | zero => intro i h; exact absurd h (Nat.not_lt_zero i)
  | succ n ih =>
    intro i h
    by_cases hi : i = n
    · subst hi
      show Function.update (memStore mem off val voff i) (off + i)
        (val.getD (voff + i) 0) (off + i) = _
      rw [Function.update_same]
    · have hlt : i < n := by omega
      show Function.update (memStore mem off val voff n) (off + n)
        (val.getD (voff + n) 0) (off + i) = _
      rw [Function.update_noteq (by omega : off + i ≠ off + n)]
      exact ih i hlt

lemma memStore_read_out (mem : Nat → Nat) (off : Nat) (val : List Nat)
    (voff : Nat) : ∀ len j, j < off ∨ off + len ≤ j →
      memStore mem off val voff len j = mem j := by
  intro len
  induction len with
  | zero => intro j _; rfl
  | succ n ih =>
    intro j h
    show Function.update (memStore mem off val voff n) (off + n)
      (val.getD (voff + n) 0) j = _
    rw [Function.update_noteq (by omega : j ≠ off + n)]
    exact ih j (by omega)

/-- A minimal frame fixture used by witnesses. -/
def s0 : VMState := ⟨0, 0, 100000, fun _ => 0, []⟩

-- ## Claims

/-- C10: `subGas` always leaves `gasLeft` decremented by the amount (negative
on an OUT_OF_GAS trap, not restored), and it traps exactly when the amount
exceeds the previous `gasLeft`. -/
theorem subGas_deducts_and_traps (gasLeft : Int) (amount : Nat) :
    (subGas gasLeft amount).1 = gasLeft - (amount : Int) ∧
    ((subGas gasLeft amount).2 = some Err.outOfGas ↔ gasLeft < (amount : Int)) := by
  refine ⟨rfl, ?_⟩
  by_cases h : gasLeft - (amount : Int) < 0
  · simp only [subGas, if_pos h]
    constructor
    · intro _; omega
    · intro _; trivial
  · simp only [subGas, if_neg h]
    constructor
    · intro hc; exact absurd hc (by simp)
    · intro hc; omega

set_option maxRecDepth 100000

/-- C1 (code bug): the source's `SDIV` applies `fromTwos(256)` only to the
divisor, so with `a` encoding `-2` and `b` encoding `2` it computes the
unsigned quotient `(2^256 - 2) / 2 = 2^255 - 1` instead of the claimed
signed quotient `-1` (encoded `2^256 - 1`). -/
theorem sdiv_at_minus_two_over_two :
    SDIV (2 ^ 256 - 2) 2 = 2 ^ 255 - 1 ∧ toTwos256 (-1) = 2 ^ 256 - 1 := by
  constructor <;> decide

/-- C3: the gas limit a child frame is assigned before any stipend injection
never exceeds `gasLeft - ⌊gasLeft/64⌋`; a request above the cap is silently
lowered to the cap; and `CREATE` (which pops no gas limit) receives exactly
the cap. -/
theorem call_gas_63_64_cap (gasLeft gasLimit : Int) (h : 0 ≤ gasLeft) :
    checkOutOfGas gasLeft gasLimit ≤ gasLeft - intDivTZ gasLeft 64 ∧
    (gasLeft - intDivTZ gasLeft 64 < gasLimit →
      checkOutOfGas gasLeft gasLimit = gasLeft - intDivTZ gasLeft 64) ∧
    createGasLimit gasLeft = gasLeft - intDivTZ gasLeft 64 := by
  have hd : 0 ≤ intDivTZ gasLeft 64 := by
    unfold intDivTZ
    rw [if_neg (by omega)]
    exact Int.ofNat_nonneg _
  unfold createGasLimit checkOutOfGas gasAllowed
  refine ⟨?_, ?_, ?_⟩
  · by_cases hc : gasLeft - intDivTZ gasLeft 64 < gasLimit
    · rw [if_pos hc]
    · rw [if_neg hc]; linarith
  · intro hlt; rw [if_pos hlt]
  · by_cases hc : gasLeft - intDivTZ gasLeft 64 < gasLeft
    · rw [if_pos hc]
    · rw [if_neg hc]; linarith

/-- C3 witness: with `gasLeft = 6400` and a requested limit of `6400`, the
forwarded gas is capped at `6400 - 100 = 6300`. -/
theorem call_gas_63_64_cap_witness :
    (0 : Int) ≤ 6400 ∧ (6400 : Int) - intDivTZ 6400 64 < 6400 ∧
    checkOutOfGas 6400 6400 = 6400 - intDivTZ 6400 64 :=
  ⟨by decide, by decide,
   (call_gas_63_64_cap 6400 6400 (by decide)).2.1 (by decide)⟩

/-- C6: `JUMP` sets the program counter when the destination is in
`validJumps` and traps INVALID_JUMP otherwise; `JUMPI` follows the same rule
when the condition is non-zero, and with a zero condition leaves the program
counter unchanged without trapping, whatever the destination. -/
theorem jump_jumpi_semantics (s : JumpState) (dest cond : Nat) :
    (dest ∈ s.validJumps →
      JUMP dest s = ({ s with programCounter := dest }, none)) ∧
    (dest ∉ s.validJumps → JUMP dest s = (s, some Err.invalidJump)) ∧
    (cond ≠ 0 → JUMPI dest cond s = JUMP dest s) ∧
    (cond = 0 → JUMPI dest cond s = (s, none)) := by
  have hv : jumpIsValid s dest = true ↔ dest ∈ s.validJumps := by
    simp [jumpIsValid]
  refine ⟨?_, ?_, ?_, ?_⟩
  · intro hm
    rw [JUMP, if_pos (hv.mpr hm)]
  · intro hm
    rw [JUMP, if_neg (by simp [hv, hm])]
  · intro hc
    by_cases hj : jumpIsValid s dest = true
    · rw [JUMP, if_pos hj, JUMPI]
      simp [hc, hj]
    · rw [JUMP, if_neg hj, JUMPI]
      simp only [Bool.not_eq_true] at hj
      simp [hc, hj]
  · intro hc
    subst hc
    rw [JUMPI]
    simp

/-- C6 witness: jumping to the sole valid destination `3` sets the program
counter; a zero-condition `JUMPI` to the invalid destination `5` is a no-op. -/
theorem jump_jumpi_semantics_witness :
    (3 ∈ (⟨0, [3]⟩ : JumpState).validJumps) ∧
    JUMP 3 ⟨0, [3]⟩ = (⟨3, [3]⟩, none) ∧
    JUMPI 5 0 ⟨0, [3]⟩ = (⟨0, [3]⟩, none) :=
  ⟨by decide, (jump_jumpi_semantics ⟨0, [3]⟩ 3 0).1 (by decide),
   (jump_jumpi_semantics ⟨0, [3]⟩ 5 0).2.2.2 rfl⟩

/-- C7 (code bug): `PUSH` takes only the bytes available before the end of
the code, with no padding — `PUSH2` over the single remaining byte `0x01`
pushes `1`, whereas right-zero-padding (the claimed behaviour, `0x0100`)
would push `256`, the value `bnOfBytes [1, 0]` shows. -/
theorem push_truncated_no_padding :
    PUSH [0x61, 0x01] 1 2 = (1, 3) ∧ bnOfBytes [1, 0] = 256 := by
  constructor <;> rfl

/-- C9 (code bug): `CALLDATASIZE` reports `0` for the one-byte call data
`[0x00]`, whose length is `1`. -/
theorem calldatasize_single_zero_byte :
    CALLDATASIZE [0] = 0 ∧ ([0] : List Nat).length = 1 := by
  constructor <;> rfl

/-- C2: for an `SSTORE` that completes without trapping, with the previous
value `found` and the new value `unpad val` (zero is the empty byte string):
zero→zero charges `sstoreResetGas` with the refund unchanged, non-zero→zero
charges `sstoreResetGas` and adds `sstoreRefundGas` to the refund,
zero→non-zero charges `sstoreSetGas`, and non-zero→non-zero charges
`sstoreResetGas` with the refund unchanged. -/
theorem sstore_gas_refund (gasLeft : Int) (gasRefund : Nat)
    (found val : List Nat)
    (hok : (SSTORE gasLeft gasRefund found val).2.2 = none) :
    ((unpad val).length = 0 → found.length = 0 →
      (SSTORE gasLeft gasRefund found val).1 = gasLeft - (sstoreResetGas : Int) ∧
      (SSTORE gasLeft gasRefund found val).2.1 = gasRefund) ∧
    ((unpad val).length = 0 → found.length ≠ 0 →
      (SSTORE gasLeft gasRefund found val).1 = gasLeft - (sstoreResetGas : Int) ∧
      (SSTORE gasLeft gasRefund found val).2.1 = gasRefund + sstoreRefundGas) ∧
    ((unpad val).length ≠ 0 → found.length = 0 →
      (SSTORE gasLeft gasRefund found val).1 = gasLeft - (sstoreSetGas : Int) ∧
      (SSTORE gasLeft gasRefund found val).2.1 = gasRefund) ∧
    ((unpad val).length ≠ 0 → found.length ≠ 0 →
      (SSTORE gasLeft gasRefund found val).1 = gasLeft - (sstoreResetGas : Int) ∧
      (SSTORE gasLeft gasRefund found val).2.1 = gasRefund) := by
  refine ⟨?_, ?_, ?_, ?_⟩ <;> intro h1 h2
  · simp [SSTORE, h1, h2, subGas]
  · have c1 : ¬((unpad val).length = 0 ∧ found.length = 0) := fun hc => h2 hc.2
    have c2 : (unpad val).length = 0 ∧ found.length ≠ 0 := ⟨h1, h2⟩
    rcases he : (subGas gasLeft sstoreResetGas).2 with _ | e
    · simp only [SSTORE, if_neg c1, if_pos c2, he]
      refine ⟨?_, ?_⟩ <;> trivial
    · rw [SSTORE] at hok
      simp only [if_neg c1, if_pos c2, he] at hok
      exact absurd hok (by simp)
  · simp [SSTORE, h1, h2, subGas]
  · simp [SSTORE, h1, h2, subGas]

/-- C2 witness: clearing a slot that held the non-zero byte `0x01` with
`gasLeft = 100000` and `gasRefund = 7` charges `sstoreResetGas` and adds
`sstoreRefundGas`. -/
theorem sstore_gas_refund_witness :
    (SSTORE 100000 7 [1] []).2.2 = none ∧
    (unpad ([] : List Nat)).length = 0 ∧ ([1] : List Nat).length ≠ 0 ∧
    (SSTORE 100000 7 [1] []).1 = 100000 - (sstoreResetGas : Int) ∧
    (SSTORE 100000 7 [1] []).2.1 = 7 + sstoreRefundGas :=
  ⟨rfl, rfl, by decide,
   ((sstore_gas_refund 100000 7 [1] [] rfl).2.1 rfl (by decide)).1,
   ((sstore_gas_refund 100000 7 [1] [] rfl).2.1 rfl (by decide)).2⟩

/-- C4: billing a memory access of `length = 0` is a no-op; an offset or
length above `MAX_INT` traps OUT_OF_GAS; otherwise, when
`w = ⌈(offset+length)/32⌉` exceeds the current word count (and
`highestMemCost` carries the cost of the current word count, the in-frame
invariant), the word count becomes `w`, exactly
`memoryGas*w + w^2/quadCoeffDiv - highestMemCost` is deducted from the gas
counter, `highestMemCost` is raised to the new total when no trap occurs,
and it never decreases. -/
theorem submemusage_billing (s : VMState) (off len : Nat)
    (hinv : s.highestMemCost = memTotalCost s.memoryWordCount) :
    (len = 0 → subMemUsage s off len = (s, none)) ∧
    (len ≠ 0 → (MAX_INT < off ∨ MAX_INT < len) →
      subMemUsage s off len = (s, some Err.outOfGas)) ∧
    (len ≠ 0 → off ≤ MAX_INT → len ≤ MAX_INT →
      s.memoryWordCount < (off + len + 31) / 32 →
      (subMemUsage s off len).1.memoryWordCount = (off + len + 31) / 32 ∧
      (subMemUsage s off len).1.gasLeft =
        s.gasLeft -
          ((memTotalCost ((off + len + 31) / 32) - s.highestMemCost : Nat) : Int) ∧
      ((subMemUsage s off len).2 = none →
        (subMemUsage s off len).1.highestMemCost =
          memTotalCost ((off + len + 31) / 32)) ∧
      s.highestMemCost ≤ (subMemUsage s off len).1.highestMemCost) := by
  refine ⟨?_, ?_, ?_⟩
  · intro h; simp [subMemUsage, h]
  · intro h1 h2; simp [subMemUsage, h1, h2]
  · intro h1 h2 h3 h4
    have hcond2 : ¬(MAX_INT < off ∨ MAX_INT < len) := by omega
    have hcond3 : ¬((off + len + 31) / 32 ≤ s.memoryWordCount) := by omega
    have hcost : s.highestMemCost < memTotalCost ((off + len + 31) / 32) := by
      rw [hinv]; exact memTotalCost_strictMono h4
    rcases he : (subGas s.gasLeft
        (memTotalCost ((off + len + 31) / 32) - s.highestMemCost)).2 with _ | e
    · simp only [subMemUsage, if_neg h1, if_neg hcond2, if_neg hcond3,
        if_pos hcost, he]
      refine ⟨by trivial, by trivial, by trivial, ?_⟩
      first
      | trivial
      | (rw [hinv]; exact (memTotalCost_strictMono h4).le)
    · simp only [subMemUsage, if_neg h1, if_neg hcond2, if_neg hcond3,
        if_pos hcost, he]
      refine ⟨by trivial, by trivial, ?_, ?_⟩
      · first
        | trivial
        | (intro hfalse; exact absurd hfalse (by simp))
      · trivial

/-- C4 witness: the first 32-byte access on the fresh frame `s0` grows the
word count to `1` and deducts `memoryGas*1 + 1/quadCoeffDiv = 3`. -/
theorem submemusage_billing_witness :
    s0.highestMemCost = memTotalCost s0.memoryWordCount ∧
    (subMemUsage s0 0 32).1.gasLeft =
      s0.gasLeft -
        ((memTotalCost ((0 + 32 + 31) / 32) - s0.highestMemCost : Nat) : Int) :=
  ⟨rfl,
   ((submemusage_billing s0 0 32 rfl).2.2 (by decide) (by decide) (by decide)
     (by decide)).2.1⟩

/-- C8: a non-trapping `CALLDATACOPY` of `len > 0` bytes bills memory
expansion for the destination and `copyGas * ⌈len/32⌉`, writes exactly the
bytes `callData[srcOff + i]` to `memory[d + i]` for `i < len` (a source
position past the end of the call data writes `0`), and leaves every byte
outside `[d, d + len)` unchanged. -/
theorem calldatacopy_copies (s : VMState) (d srcOff len : Nat)
    (_hlen : 0 < len) (hok : (subMemUsage s d len).2 = none) :
    (CALLDATACOPY s d srcOff len).1.gasLeft =
      (subMemUsage s d len).1.gasLeft -
        ((copyGas * ((len + 31) / 32) : Nat) : Int) ∧
    (∀ i, i < len →
      (CALLDATACOPY s d srcOff len).1.memory (d + i) =
        s.callData.getD (srcOff + i) 0) ∧
    (∀ i, i < len → s.callData.length ≤ srcOff + i →
      (CALLDATACOPY s d srcOff len).1.memory (d + i) = 0) ∧
    (∀ j, j < d ∨ d + len ≤ j →
      (CALLDATACOPY s d srcOff len).1.memory j = s.memory j) := by
  have hmem : (CALLDATACOPY s d srcOff len).1.memory =
      memStore (subMemUsage s d len).1.memory d s.callData srcOff len := by
    simp only [CALLDATACOPY, hok]
  have hgas : (CALLDATACOPY s d srcOff len).1.gasLeft =
      (subMemUsage s d len).1.gasLeft -
        ((copyGas * ((len + 31) / 32) : Nat) : Int) := by
    simp only [CALLDATACOPY, hok, subGas]
  refine ⟨hgas, ?_, ?_, ?_⟩
  · intro i hi
    rw [hmem]
    exact memStore_read_in _ d s.callData srcOff len i hi
  · intro i hi hbeyond
    rw [hmem, memStore_read_in _ d s.callData srcOff len i hi]
    exact List.getD_eq_default _ _ hbeyond
  · intro j hj
    rw [hmem, memStore_read_out _ d s.callData srcOff len j hj,
      subMemUsage_memory]

/-- A frame fixture with two bytes of call data, used by the C8 witness. -/
def sCD : VMState := ⟨0, 0, 1000, fun _ => 0, [7, 8]⟩

/-- C8 witness: copying 3 bytes of the 2-byte call data `[7, 8]` to offset 0
writes `7`, `8`, `0` and charges the expansion fee plus one copy-word fee. -/
theorem calldatacopy_copies_witness :
    (0 : Nat) < 3 ∧ (subMemUsage sCD 0 3).2 = none ∧
    (CALLDATACOPY sCD 0 0 3).1.memory (0 + 0) = sCD.callData.getD (0 + 0) 0 ∧
    (CALLDATACOPY sCD 0 0 3).1.memory (0 + 2) = 0 ∧
    (CALLDATACOPY sCD 0 0 3).1.gasLeft =
      (subMemUsage sCD 0 3).1.gasLeft - ((copyGas * ((3 + 31) / 32) : Nat) : Int) :=
  ⟨by decide, rfl,
   (calldatacopy_copies sCD 0 0 3 (by decide) rfl).2.1 0 (by decide),
   (calldatacopy_copies sCD 0 0 3 (by decide) rfl).2.2.1 2 (by decide) (by decide),
   (calldatacopy_copies sCD 0 0 3 (by decide) rfl).1⟩

/-- C5 counterexample: a `CALL` with `value = 1` at depth `1024` (balance
`5`, recipient existing and non-empty, all lengths zero) does push `0`
without invoking the child runner, but it still issues the
`exists`/`accountIsEmpty` state-manager queries and changes `gasLeft` from
`100000` to `93300` (`- callValueTransferGas + callStipend`) — gas beyond
the opcode's base cost and its (here zero) memory bills — refuting the
claim's "no state-manager calls, no extra gas" for CALL. -/
theorem call_guard_counterexample :
    (CALL s0 0 1 0 0 0 0 1024 5 true false).childInvoked = false ∧
    (CALL s0 0 1 0 0 0 0 1024 5 true false).push = some 0 ∧
    (CALL s0 0 1 0 0 0 0 1024 5 true false).smCalls =
      [SMCall.existsAcct, SMCall.accountIsEmpty] ∧
    (CALL s0 0 1 0 0 0 0 1024 5 true false).state.gasLeft = 93300 ∧
    (93300 : Int) ≠ s0.gasLeft := by
  refine ⟨by decide, by decide, by decide, by decide, by decide⟩

/-- C5 amended: at depth ≥ 1024, or for a non-delegate call whose value
exceeds the balance, the `makeCall` guard pushes `0` and returns without
invoking the child-frame runner and without the cache write of the normal
path; `CREATE` (which performs no state-manager traffic and no gas charge
before the guard beyond its memory bill) then indeed spends nothing further
— but the pre-guard charges and state-manager queries of the other call
opcodes still occur, as the counterexample records. -/
theorem makecall_guard_amended (depth value balance : Nat) (delegate : Bool)
    (h : stackLimit ≤ depth ∨ (delegate = false ∧ balance < value)) :
    makeCall depth delegate balance value = (some 0, false, []) ∧
    (∀ (s : VMState) (offset length : Nat),
      (subMemUsage s offset length).2 = none →
      (CREATE s value offset length depth balance).push = some 0 ∧
      (CREATE s value offset length depth balance).childInvoked = false ∧
      (CREATE s value offset length depth balance).smCalls = [] ∧
      (CREATE s value offset length depth balance).state.gasLeft =
        (subMemUsage s offset length).1.gasLeft) := by
  have hg1 : makeCallGuard depth delegate balance value = true := by
    rcases h with h | ⟨h1, h2⟩
    · simp [makeCallGuard, h]
    · subst h1; simp [makeCallGuard, h2]
  have hg2 : makeCallGuard depth false balance value = true := by
    rcases h with h | ⟨h1, h2⟩
    · simp [makeCallGuard, h]
    · simp [makeCallGuard, h2]
  refine ⟨by simp [makeCall, hg1], ?_⟩
  intro s offset length hok
  refine ⟨?_, ?_, ?_, ?_⟩ <;>
    simp only [CREATE, hok, hg2, if_true]

/-- C5 amended witness: at depth `1024` the guard fires; `makeCall` pushes
`0` without invoking the child, and a `CREATE` on the fresh frame `s0`
pushes `0`, makes no state-manager calls, and spends no gas. -/
theorem makecall_guard_amended_witness :
    (stackLimit ≤ 1024 ∨ (false = false ∧ 5 < 0)) ∧
    makeCall 1024 false 5 0 = (some 0, false, []) ∧
    (subMemUsage s0 0 0).2 = none ∧
    (CREATE s0 0 0 0 1024 5).push = some 0 :=
  ⟨Or.inl (by decide),
   (makecall_guard_amended 1024 0 5 false (Or.inl (by decide))).1,
   rfl,
   ((makecall_guard_amended 1024 0 5 false (Or.inl (by decide))).2 s0 0 0 rfl).1⟩
